import Mathlib

/-!
Shallow embedding of `src/multiprocessing.py`: a webdataset sharding example
that packages metadata records with their image payloads and writes them in
batches through a rotating shard writer.

The pure packaging function `get_item`, the batching/collection loop and the
results-buffer flushing are translated directly from the source. The external
`wds.ShardWriter` (a library collaborator whose code is not part of this
repository) is modelled from the spec, as marked on each such definition.
-/

set_option maxHeartbeats 1000000

namespace WdsExample

/-- A metadata record, as produced by the metadata source: the `id` field
together with the rest of its metadata fields (kept abstract as `M`). -/
structure Rec (M : Type) where
  id : String
  meta : M
deriving DecidableEq, Repr

/-- A value stored under one key of a packaged item dict: the `__key__`
string, the `json` metadata record, or raw payload bytes (one `Nat` per
byte). -/
inductive Entry (M : Type) where
  | str : String → Entry M
  | json : Rec M → Entry M
  | bytes : List Nat → Entry M
deriving DecidableEq, Repr

/-- Python dict assignment of one key: overwrite in place if the key is
already present, otherwise append at the end (insertion order preserved). -/
def dinsert {α : Type} (m : List (String × α)) (k : String) (v : α) :
    List (String × α) :=
  if m.any (fun p => p.1 == k) then m.map (fun p => if p.1 == k then (k, v) else p)
  else m ++ [(k, v)]

/-- Python `dict.update`: assign every key/value pair of `kvs` in order. -/
def dupdate {α : Type} (m : List (String × α)) (kvs : List (String × α)) :
    List (String × α) :=
  kvs.foldl (fun acc p => dinsert acc p.1 p.2) m

/-- Python dict lookup: the value of the first entry carrying the key. -/
def dget {α : Type} (m : List (String × α)) (k : String) : Option α :=
  (m.find? (fun p => p.1 == k)).map (fun p => p.2)

/-- Python `filename.split("_")[0]`: the part of the name before the first
underscore (the whole name when it has no underscore). -/
def firstField (f : String) : String :=
  String.mk (f.data.takeWhile (fun c => !(c == '_')))

/-- Python string comparison: lexicographic on the code points, which is the
order `sorted` uses in `get_item`. -/
def pyStrLe (a b : String) : Prop := a.data ≤ b.data

instance : DecidableRel pyStrLe := fun a b => by
  unfold pyStrLe; infer_instance

instance : IsTotal String pyStrLe := ⟨fun a b => le_total a.data b.data⟩

instance : IsTrans String pyStrLe := ⟨fun _ _ _ h1 h2 => le_trans h1 h2⟩

/-- The `sorted(list(filter(...)))` step of `get_item`: the files whose name
part before the first underscore equals the record id, sorted
lexicographically. -/
def item_files_of (files : List String) (id : String) : List String :=
  List.insertionSort pyStrLe (files.filter (fun f => firstField f == id))

/-- The payload dict comprehension of `get_item`: the matching files are
re-numbered `1..N` (from `enumerate`, so slot `idx+1` with suffix `.jpg`) and
each slot is mapped to the bytes of its file, read by `read`. -/
def payload_slots (read : String → List Nat) (files : List String) (id : String) :
    List (String × List Nat) :=
  (item_files_of files id).enum.map (fun p => (toString (p.1 + 1) ++ ".jpg", read p.2))

/-- Shallow embedding of `get_item`: build `{"__key__": id, "json": item}` and
update it with the payload slots, exactly as the source does. -/
def get_item {M : Type} (read : String → List Nat) (files : List String)
    (item : Rec M) : List (String × Entry M) :=
  dupdate [("__key__", Entry.str item.id), ("json", Entry.json item)]
    ((payload_slots read files item.id).map (fun p => (p.1, Entry.bytes p.2)))

/-- One completed future collected by the main loop: `results.append(result)`
followed by the flush `if len(results) > 1000: write all; results = []`. The
state is the pair `(results, written)` where `written` is the sequence of
items passed to `sink.write` so far, in order. -/
def collect {I : Type} (st : List I × List I) (r : I) : List I × List I :=
  let results := st.1 ++ [r]
  if 1000 < results.length then ([], st.2 ++ results) else (results, st.2)

/-- The `while items:` loop of the source: take the batch `items[:10000]`,
submit it (packaging each record with `pack`), delete it from `items`, and
drain the batch completions in the order given by `order` (the order in
which the futures of batch number `n` complete), collecting each result. -/
def runAux {R I : Type} (pack : R → I) (order : Nat → List I → List I)
    (items : List R) (n : Nat) (st : List I × List I) : List I × List I :=
  match items with
  | [] => st
  | x :: xs =>
    runAux pack order ((x :: xs).drop 10000) (n + 1)
      ((order n (((x :: xs).take 10000).map pack)).foldl collect st)
termination_by items.length
decreasing_by
  simp only [List.length_drop, List.length_cons]
  omega

/-- The whole run: the batching loop from the empty state, then the final
unconditional flush `for result in results: sink.write(result)`. The value
is the full sequence of items passed to `sink.write`, in order. -/
def run {R I : Type} (pack : R → I) (order : Nat → List I → List I)
    (items : List R) : List I :=
  (runAux pack order items 0 ([], [])).2 ++ (runAux pack order items 0 ([], [])).1

/-- The completion order of the whole run: batch by batch, the order in which
the futures of each batch complete. -/
def completedSeq {R I : Type} (pack : R → I) (order : Nat → List I → List I)
    (items : List R) (n : Nat) : List I :=
  match items with
  | [] => []
  | x :: xs =>
    order n (((x :: xs).take 10000).map pack) ++
      completedSeq pack order ((x :: xs).drop 10000) (n + 1)
termination_by items.length
decreasing_by
  simp only [List.length_drop, List.length_cons]
  omega

/-- The consecutive batches `items[:10000]`, `items[10000:20000]`, … taken by
the loop. -/
def chunks {R : Type} (items : List R) : List (List R) :=
  match items with
  | [] => []
  | x :: xs => (x :: xs).take 10000 :: chunks ((x :: xs).drop 10000)
termination_by items.length
decreasing_by
  simp only [List.length_drop, List.length_cons]
  omega

/-- Fuel-indexed version of the `while items:` loop, used to state that the
loop terminates within `items.length` iterations. -/
def runAuxF {R I : Type} (pack : R → I) (order : Nat → List I → List I) :
    Nat → List R → Nat → List I × List I → List I × List I
  | 0, _, _, st => st
  | _ + 1, [], _, st => st
  | fuel + 1, x :: xs, n, st =>
    runAuxF pack order fuel ((x :: xs).drop 10000) (n + 1)
      ((order n (((x :: xs).take 10000).map pack)).foldl collect st)

/-- Exception-aware drain of one batch of completions: `future.result()`
re-raises the first task error, which propagates past the collection loop,
so on error the run ends with that error and with only the writes flushed so
far; otherwise every result is collected in completion order. -/
def drainE {I E : Type} (st : List I × List I) :
    List (Except E I) → Except (E × List I) (List I × List I)
  | [] => Except.ok st
  | Except.error e :: _ => Except.error (e, st.2)
  | Except.ok r :: cs => drainE (collect st r) cs

/-- The `while items:` loop when packaging tasks can fail: each batch is
packaged (each task yielding `Except.ok` or `Except.error`), its completions
are drained in the order given by `order`, and a task error aborts the loop
immediately. -/
def runAuxE {R I E : Type} (pack : R → Except E I)
    (order : Nat → List (Except E I) → List (Except E I))
    (items : List R) (n : Nat) (st : List I × List I) :
    Except (E × List I) (List I × List I) :=
  match items with
  | [] => Except.ok st
  | x :: xs =>
    match drainE st (order n (((x :: xs).take 10000).map pack)) with
    | Except.error ew => Except.error ew
    | Except.ok st2 => runAuxE pack order ((x :: xs).drop 10000) (n + 1) st2
termination_by items.length
decreasing_by
  simp only [List.length_drop, List.length_cons]
  omega

/-- The whole fallible run: on success the final flush happens and the full
write sequence is returned; a task failure is re-raised to the caller with
the writes made before it. -/
def runE {R I E : Type} (pack : R → Except E I)
    (order : Nat → List (Except E I) → List (Except E I))
    (items : List R) : Except (E × List I) (List I) :=
  match runAuxE pack order items 0 ([], []) with
  | Except.error ew => Except.error ew
  | Except.ok st => Except.ok (st.2 ++ st.1)

/-- Modelled from the spec: the sharding policy of the external
`wds.ShardWriter` collaborator (`maxcount` records and `maxsize` bytes per
shard), whose implementation is not part of this repository. -/
structure ShardingPolicy where
  maxcount : Nat
  maxsize : Nat
deriving DecidableEq, Repr

/-- Modelled from the spec: the ShardWriter state — current shard index,
record count and byte size of the current shard, and the closed shards as
`(count, size)` pairs in order. -/
structure ShardState where
  index : Nat
  count : Nat
  size : Nat
  closed : List (Nat × Nat)
deriving DecidableEq, Repr

/-- The writer state at the start of a run: shard 0 open and empty. -/
def initShard : ShardState := ⟨0, 0, 0, []⟩

/-- Modelled from the spec: rotation closes the current shard, opens a new one
with the index incremented by 1, and resets both counters to zero. -/
def rotate (st : ShardState) : ShardState :=
  ⟨st.index + 1, 0, 0, st.closed ++ [(st.count, st.size)]⟩

/-- Modelled from the spec: one `write(item)`. Before accepting the item,
rotate if `currentCount >= maxCount` or `currentSizeBytes >= maxSizeBytes`;
then write the item whole (never split or rejected), adding one to the count
and its serialized size to the byte size. -/
def swrite (p : ShardingPolicy) (st : ShardState) (sz : Nat) : ShardState :=
  let st := if p.maxcount ≤ st.count ∨ p.maxsize ≤ st.size then rotate st else st
  ⟨st.index, st.count + 1, st.size + sz, st.closed⟩

/-- A whole sequence of writes through the shard writer. -/
def writeAll (p : ShardingPolicy) (szs : List Nat) (st : ShardState) : ShardState :=
  szs.foldl (swrite p) st

/-- The total number of records across all shards: the closed shards plus the
currently open one. -/
def totalCount (st : ShardState) : Nat :=
  (st.closed.map Prod.fst).sum + st.count

/-! Helper lemmas about the Python dict embedding. -/

theorem find?_map_overwrite {α : Type} (m : List (String × α)) (k k2 : String) (v : α)
    (h : (k == k2) = false) :
    (m.map (fun p => if p.1 == k then (k, v) else p)).find? (fun p => p.1 == k2)
      = m.find? (fun p => p.1 == k2) := by
  induction m with
  | nil => rfl
  | cons q m ih =>
    by_cases hq : q.1 == k
    · have hqk : q.1 = k := by simpa using hq
      simp only [List.map_cons, hq, if_true]
      rw [List.find?_cons_of_neg _ (by simp_all), List.find?_cons_of_neg _ (by simp_all)]
      exact ih
    · simp only [List.map_cons, hq, if_false, Bool.false_eq_true]
      by_cases hq2 : q.1 == k2
      · rw [List.find?_cons_of_pos _ (by simpa using hq2),
          List.find?_cons_of_pos _ (by simpa using hq2)]
      · rw [List.find?_cons_of_neg _ (by simpa using hq2),
          List.find?_cons_of_neg _ (by simpa using hq2)]
        exact ih

theorem dget_append_single {α : Type} (m : List (String × α)) (k k2 : String) (v : α)
    (h : (k == k2) = false) :
    dget (m ++ [(k, v)]) k2 = dget m k2 := by
  unfold dget
  rw [List.find?_append]
  have hnone : List.find? (fun p => p.1 == k2) [(k, v)] = none := by
    rw [List.find?_cons_of_neg _ (by simpa using h)]
    rfl
  rw [hnone]
  cases m.find? (fun p => p.1 == k2) <;> rfl

theorem dget_dinsert_ne {α : Type} (m : List (String × α)) (k k2 : String) (v : α)
    (h : k2 ≠ k) :
    dget (dinsert m k v) k2 = dget m k2 := by
  have hbeq : (k == k2) = false := beq_eq_false_iff_ne.mpr (Ne.symm h)
  unfold dinsert
  by_cases hany : m.any (fun p => p.1 == k)
  · simp only [hany, if_true]
    unfold dget
    rw [find?_map_overwrite m k k2 v hbeq]
  · simp only [hany, Bool.false_eq_true, if_false]
    exact dget_append_single m k k2 v hbeq

theorem dget_dupdate_ne {α : Type} (kvs : List (String × α)) (m : List (String × α))
    (k2 : String) (h : ∀ p ∈ kvs, p.1 ≠ k2) :
    dget (dupdate m kvs) k2 = dget m k2 := by
  induction kvs generalizing m with
  | nil => rfl
  | cons q kvs ih =>
    unfold dupdate at ih ⊢
    rw [List.foldl_cons]
    rw [ih (dinsert m q.1 q.2) (fun p hp => h p (List.mem_cons_of_mem q hp))]
    exact dget_dinsert_ne m q.1 k2 q.2 (Ne.symm (h q (List.mem_cons_self q kvs)))

/-! Helper lemmas about the canonical slot names. -/

theorem jpg_ne_key (s : String) : s ++ ".jpg" ≠ "__key__" := by
  intro h
  have hjpg : ".jpg".data = ['.', 'j', 'p', 'g'] := by decide
  have hkey : "__key__".data = ['_', '_', 'k', 'e', 'y', '_', '_'] := by decide
  have hd : s.data ++ ['.', 'j', 'p', 'g'] = ['_', '_', 'k', 'e', 'y', '_', '_'] := by
    have hda := congrArg String.data h
    rw [String.data_append, hjpg, hkey] at hda
    exact hda
  have hlen := congrArg List.length hd
  simp only [List.length_append, List.length_cons, List.length_nil] at hlen
  have h3 : s.data.length = 3 := by omega
  have h2 : s.data ++ ['.', 'j', 'p', 'g'] = ['_', '_', 'k'] ++ ['e', 'y', '_', '_'] := by
    rw [hd]; rfl
  have := List.append_inj_right h2 (by simp [h3])
  simp at this

theorem jpg_ne_json (s : String) : s ++ ".jpg" ≠ "json" := by
  intro h
  have hjpg : ".jpg".data = ['.', 'j', 'p', 'g'] := by decide
  have hjs : "json".data = ['j', 's', 'o', 'n'] := by decide
  have hd : s.data ++ ['.', 'j', 'p', 'g'] = ['j', 's', 'o', 'n'] := by
    have hda := congrArg String.data h
    rw [String.data_append, hjpg, hjs] at hda
    exact hda
  have hlen := congrArg List.length hd
  simp only [List.length_append, List.length_cons, List.length_nil] at hlen
  have h0 : s.data = [] := List.length_eq_zero.mp (by omega)
  rw [h0] at hd
  simp at hd

theorem payload_slots_key_shape (read : String → List Nat) (files : List String)
    (id : String) :
    ∀ p ∈ payload_slots read files id, ∃ n, 1 ≤ n ∧ p.1 = toString n ++ ".jpg" := by
  intro p hp
  simp only [payload_slots, List.mem_map] at hp
  obtain ⟨q, hq, rfl⟩ := hp
  exact ⟨q.1 + 1, by omega, rfl⟩

/-- C2: the Payload Resolver selects exactly the filenames whose part before
the first underscore equals the record id, sorts the matches
lexicographically, and re-numbers them `1..N` with suffix `.jpg`; for record
id "42" with files 42_2.jpg, 42_1.jpg, 42_0.jpg the resolved slots are
1.jpg ↦ bytes(42_0.jpg), 2.jpg ↦ bytes(42_1.jpg), 3.jpg ↦ bytes(42_2.jpg);
zero matches yield an empty payload set. -/
theorem claim_C2 (read : String → List Nat) (files : List String) (id : String) :
    (∀ f, f ∈ item_files_of files id ↔ (f ∈ files ∧ firstField f = id))
    ∧ (item_files_of files id).Perm (files.filter (fun f => firstField f == id))
    ∧ List.Sorted pyStrLe (item_files_of files id)
    ∧ payload_slots read files id
        = (item_files_of files id).enum.map
            (fun p => (toString (p.1 + 1) ++ ".jpg", read p.2))
    ∧ ((∀ f ∈ files, firstField f ≠ id) → payload_slots read files id = [])
    ∧ payload_slots read ["42_2.jpg", "42_1.jpg", "42_0.jpg"] "42"
        = [("1.jpg", read "42_0.jpg"), ("2.jpg", read "42_1.jpg"),
           ("3.jpg", read "42_2.jpg")] := by
  have hperm : (item_files_of files id).Perm
      (files.filter (fun f => firstField f == id)) :=
    List.perm_insertionSort pyStrLe _
  refine ⟨?_, hperm, List.sorted_insertionSort pyStrLe _, rfl, ?_, ?_⟩
  · intro f
    rw [hperm.mem_iff, List.mem_filter]
    simp [beq_iff_eq]
  · intro hz
    have hfil : files.filter (fun f => firstField f == id) = [] := by
      rw [List.filter_eq_nil_iff]
      intro a ha
      simpa using hz a ha
    unfold payload_slots item_files_of
    rw [hfil]
    rfl
  · have hif : item_files_of ["42_2.jpg", "42_1.jpg", "42_0.jpg"] "42"
        = ["42_0.jpg", "42_1.jpg", "42_2.jpg"] := by decide
    unfold payload_slots
    rw [hif]
    rfl

/-- Witness for C2: the concrete scenario evaluated with a concrete byte
reader, plus a concrete zero-match record. -/
theorem claim_C2_witness :
    payload_slots (fun f => f.data.map Char.toNat) ["42_2.jpg", "42_1.jpg", "42_0.jpg"] "42"
      = [("1.jpg", "42_0.jpg".data.map Char.toNat),
         ("2.jpg", "42_1.jpg".data.map Char.toNat),
         ("3.jpg", "42_2.jpg".data.map Char.toNat)]
    ∧ payload_slots (fun f => f.data.map Char.toNat) ["a_1.jpg"] "42" = [] :=
  ⟨(claim_C2 (fun f => f.data.map Char.toNat) ["42_2.jpg", "42_1.jpg", "42_0.jpg"]
      "42").2.2.2.2.2,
   (claim_C2 (fun f => f.data.map Char.toNat) ["a_1.jpg"] "42").2.2.2.2.1 (by decide)⟩

/-- C8: the Payload Resolver is deterministic — an identical file listing and
an identical record give the identical slot-to-file mapping on both runs. -/
theorem claim_C8 {M : Type} (read : String → List Nat) (files1 files2 : List String)
    (item1 item2 : Rec M) (hf : files1 = files2) (hi : item1 = item2) :
    payload_slots read files1 item1.id = payload_slots read files2 item2.id
    ∧ get_item read files1 item1 = get_item read files2 item2 := by
  subst hf; subst hi; exact ⟨rfl, rfl⟩

/-- Witness for C8 at a concrete listing and record. -/
theorem claim_C8_witness :
    payload_slots (fun _ => [0]) ["5_1.jpg"] ((⟨"5", 0⟩ : Rec Nat).id)
        = payload_slots (fun _ => [0]) ["5_1.jpg"] ((⟨"5", 0⟩ : Rec Nat).id)
    ∧ get_item (fun _ => [0]) ["5_1.jpg"] (⟨"5", 0⟩ : Rec Nat)
        = get_item (fun _ => [0]) ["5_1.jpg"] (⟨"5", 0⟩ : Rec Nat) :=
  claim_C8 (fun _ => [0]) ["5_1.jpg"] ["5_1.jpg"] ⟨"5", 0⟩ ⟨"5", 0⟩ rfl rfl

/-- C10: the packaged item maps `__key__` to the record id and `json` to the
full record, and merging the payload slots never overwrites either reserved
entry, because every canonical slot name has the form `N.jpg` with `N ≥ 1`,
distinct from both `__key__` and `json`. -/
theorem claim_C10 {M : Type} (read : String → List Nat) (files : List String)
    (item : Rec M) :
    dget (get_item read files item) "__key__" = some (Entry.str item.id)
    ∧ dget (get_item read files item) "json" = some (Entry.json item)
    ∧ ∀ k ∈ (payload_slots read files item.id).map Prod.fst,
        (∃ n, 1 ≤ n ∧ k = toString n ++ ".jpg") ∧ k ≠ "__key__" ∧ k ≠ "json" := by
  have hshape := payload_slots_key_shape read files item.id
  have hne : ∀ p ∈ (payload_slots read files item.id).map
      (fun p => (p.1, (Entry.bytes p.2 : Entry M))), p.1 ≠ "__key__" ∧ p.1 ≠ "json" := by
    intro p hp
    rw [List.mem_map] at hp
    obtain ⟨q, hq, rfl⟩ := hp
    obtain ⟨n, _, hqe⟩ := hshape q hq
    exact ⟨hqe ▸ jpg_ne_key (toString n), hqe ▸ jpg_ne_json (toString n)⟩
  refine ⟨?_, ?_, ?_⟩
  · unfold get_item
    rw [dget_dupdate_ne _ _ _ (fun p hp => (hne p hp).1)]
    rfl
  · unfold get_item
    rw [dget_dupdate_ne _ _ _ (fun p hp => (hne p hp).2)]
    rfl
  · intro k hk
    rw [List.mem_map] at hk
    obtain ⟨q, hq, rfl⟩ := hk
    obtain ⟨n, hn, hqe⟩ := hshape q hq
    exact ⟨⟨n, hn, hqe⟩, hqe ▸ jpg_ne_key (toString n), hqe ▸ jpg_ne_json (toString n)⟩

/-- Witness for C10 at a concrete record, listing and slot name. -/
theorem claim_C10_witness :
    dget (get_item (fun _ => [9]) ["7_0.jpg"] (⟨"7", 0⟩ : Rec Nat)) "__key__"
        = some (Entry.str "7")
    ∧ dget (get_item (fun _ => [9]) ["7_0.jpg"] (⟨"7", 0⟩ : Rec Nat)) "json"
        = some (Entry.json ⟨"7", 0⟩)
    ∧ (("1.jpg" : String) ≠ "__key__" ∧ ("1.jpg" : String) ≠ "json") :=
  ⟨(claim_C10 (fun _ => [9]) ["7_0.jpg"] ⟨"7", 0⟩).1,
   (claim_C10 (fun _ => [9]) ["7_0.jpg"] ⟨"7", 0⟩).2.1,
   ((claim_C10 (fun _ => [9]) ["7_0.jpg"] ⟨"7", 0⟩).2.2 "1.jpg" (by decide)).2⟩

/-! Helper lemmas about the batching/collection loop. -/

theorem collect_flat {I : Type} (st : List I × List I) (r : I) :
    (collect st r).2 ++ (collect st r).1 = st.2 ++ st.1 ++ [r] := by
  simp only [collect]
  split
  · simp
  · simp [List.append_assoc]

theorem drain_flat {I : Type} (cs : List I) :
    ∀ (st : List I × List I),
      (cs.foldl collect st).2 ++ (cs.foldl collect st).1 = st.2 ++ st.1 ++ cs := by
  induction cs with
  | nil => intro st; simp
  | cons c cs ih =>
    intro st
    rw [List.foldl_cons, ih, collect_flat]
    simp

theorem runAux_flat_aux {R I : Type} (pack : R → I) (order : Nat → List I → List I) :
    ∀ (k : Nat) (items : List R), items.length ≤ k → ∀ (n : Nat) (st : List I × List I),
      (runAux pack order items n st).2 ++ (runAux pack order items n st).1
        = st.2 ++ st.1 ++ completedSeq pack order items n := by
  intro k
  induction k with
  | zero =>
    intro items hlen n st
    have hnil : items = [] := List.length_eq_zero.mp (Nat.le_zero.mp hlen)
    subst hnil
    simp [runAux, completedSeq]
  | succ k ih =>
    intro items hlen n st
    cases items with
    | nil => simp [runAux, completedSeq]
    | cons x xs =>
      simp only [runAux, completedSeq]
      rw [ih ((x :: xs).drop 10000)
        (by simp only [List.length_drop, List.length_cons] at hlen ⊢; omega) (n + 1)]
      rw [drain_flat]
      simp [List.append_assoc]

theorem run_eq_completedSeq {R I : Type} (pack : R → I) (order : Nat → List I → List I)
    (items : List R) :
    run pack order items = completedSeq pack order items 0 := by
  unfold run
  rw [runAux_flat_aux pack order items.length items le_rfl 0 ([], [])]
  rfl

theorem completedSeq_perm_aux {R I : Type} (pack : R → I) (order : Nat → List I → List I)
    (hord : ∀ n l, (order n l).Perm l) :
    ∀ (k : Nat) (items : List R), items.length ≤ k → ∀ (n : Nat),
      (completedSeq pack order items n).Perm (items.map pack) := by
  intro k
  induction k with
  | zero =>
    intro items hlen n
    have hnil : items = [] := List.length_eq_zero.mp (Nat.le_zero.mp hlen)
    subst hnil
    simp [completedSeq]
  | succ k ih =>
    intro items hlen n
    cases items with
    | nil => simp [completedSeq]
    | cons x xs =>
      simp only [completedSeq]
      have h2 := ih ((x :: xs).drop 10000)
        (by simp only [List.length_drop, List.length_cons] at hlen ⊢; omega) (n + 1)
      have h3 := (hord n (((x :: xs).take 10000).map pack)).append h2
      have h4 : ((x :: xs).take 10000).map pack ++ ((x :: xs).drop 10000).map pack
          = (x :: xs).map pack := by
        rw [← List.map_append, List.take_append_drop]
      rw [h4] at h3
      exact h3

theorem completedSeq_flatten_aux {R I : Type} (pack : R → I) (order : Nat → List I → List I) :
    ∀ (k : Nat) (items : List R), items.length ≤ k → ∀ (n : Nat),
      completedSeq pack order items n
        = (((chunks items).enumFrom n).map (fun p => order p.1 (p.2.map pack))).flatten := by
  intro k
  induction k with
  | zero =>
    intro items hlen n
    have hnil : items = [] := List.length_eq_zero.mp (Nat.le_zero.mp hlen)
    subst hnil
    simp [completedSeq, chunks]
  | succ k ih =>
    intro items hlen n
    cases items with
    | nil => simp [completedSeq, chunks]
    | cons x xs =>
      simp only [completedSeq, chunks, List.enumFrom_cons, List.map_cons, List.flatten_cons]
      rw [ih ((x :: xs).drop 10000)
        (by simp only [List.length_drop, List.length_cons] at hlen ⊢; omega) (n + 1)]

/-! Helper lemmas about the modelled shard writer. -/

theorem swrite_totalCount (p : ShardingPolicy) (st : ShardState) (sz : Nat) :
    totalCount (swrite p st sz) = totalCount st + 1 := by
  by_cases h : p.maxcount ≤ st.count ∨ p.maxsize ≤ st.size
  · simp [swrite, rotate, h, totalCount, List.map_append, List.sum_append]
  · simp only [swrite, h, if_false, totalCount]
    omega

theorem writeAll_totalCount (p : ShardingPolicy) :
    ∀ (szs : List Nat) (st : ShardState),
      totalCount (writeAll p szs st) = totalCount st + szs.length := by
  intro szs
  induction szs with
  | nil => intro st; simp [writeAll]
  | cons s szs ih =>
    intro st
    unfold writeAll at ih ⊢
    rw [List.foldl_cons, ih, swrite_totalCount]
    simp only [List.length_cons]
    omega

/-- C1: for every completed run, the write sequence is a permutation of the
packaged input records (each packaged and written exactly once), and feeding
it through the shard writer gives a total record count across all shards
equal to the number of input records. -/
theorem claim_C1 {R I : Type} (pack : R → I) (order : Nat → List I → List I)
    (hord : ∀ n l, (order n l).Perm l) (items : List R) (p : ShardingPolicy)
    (isize : I → Nat) :
    (run pack order items).Perm (items.map pack)
    ∧ totalCount (writeAll p ((run pack order items).map isize) initShard)
        = items.length := by
  have hperm : (run pack order items).Perm (items.map pack) := by
    rw [run_eq_completedSeq]
    exact completedSeq_perm_aux pack order hord items.length items le_rfl 0
  refine ⟨hperm, ?_⟩
  rw [writeAll_totalCount]
  simp only [totalCount, initShard, List.map_nil, List.sum_nil, List.length_map,
    Nat.zero_add]
  rw [hperm.length_eq, List.length_map]

/-- Witness for C1: a three-record run through a writer with `maxcount = 2`. -/
theorem claim_C1_witness :
    (run (fun s : String => s) (fun _ l => l) ["a", "b", "c"]).Perm
        (["a", "b", "c"].map (fun s => s))
    ∧ totalCount (writeAll ⟨2, 10⟩
        ((run (fun s : String => s) (fun _ l => l) ["a", "b", "c"]).map (fun _ => 1))
        initShard) = 3 :=
  claim_C1 (fun s => s) (fun _ l => l) (fun _ l => List.Perm.refl l)
    ["a", "b", "c"] ⟨2, 10⟩ (fun _ => 1)

/-- C4: when an appended result makes the buffer exceed the threshold of 1000,
the whole buffer is written in completion order and cleared, otherwise
nothing is written; and the run ends by flushing every remaining buffered
item, so the full completion sequence is written and nothing stays buffered. -/
theorem claim_C4 {R I : Type} (pack : R → I) (order : Nat → List I → List I)
    (items : List R) (st : List I × List I) (r : I) :
    (1000 < (st.1 ++ [r]).length → collect st r = ([], st.2 ++ (st.1 ++ [r])))
    ∧ ((st.1 ++ [r]).length ≤ 1000 → collect st r = (st.1 ++ [r], st.2))
    ∧ run pack order items
        = (runAux pack order items 0 ([], [])).2 ++ (runAux pack order items 0 ([], [])).1
    ∧ run pack order items = completedSeq pack order items 0 := by
  refine ⟨?_, ?_, rfl, run_eq_completedSeq pack order items⟩
  · intro h
    simp only [List.length_append, List.length_cons, List.length_nil] at h
    simp [collect, h]
  · intro h
    simp only [List.length_append, List.length_cons, List.length_nil] at h
    simp [collect, Nat.not_lt.mpr h]

/-- Witness for C4: a flush just past the threshold and a non-flushing append. -/
theorem claim_C4_witness :
    collect (List.replicate 1000 (0 : Nat), ([] : List Nat)) 0
        = ([], [] ++ (List.replicate 1000 (0 : Nat) ++ [0]))
    ∧ collect (([] : List Nat), ([] : List Nat)) 5 = ([] ++ [5], []) :=
  ⟨(claim_C4 (fun n : Nat => n) (fun _ l => l) [] _ 0).1
      (by simp only [List.length_append, List.length_replicate, List.length_cons,
        List.length_nil]; omega),
   (claim_C4 (fun n : Nat => n) (fun _ l => l) [] _ 5).2.1
      (by simp only [List.length_append, List.length_cons, List.length_nil]; omega)⟩

/-- C7: the write sequence of a run is the concatenation, batch by batch in
source order, of the completion orders of the individual batches — every
item of batch N is written before any item of batch N+1 — while within a
batch the completion order is an arbitrary permutation of the batch. -/
theorem claim_C7 {R I : Type} (pack : R → I) (order : Nat → List I → List I)
    (hord : ∀ n l, (order n l).Perm l) (items : List R) :
    run pack order items
      = (((chunks items).enumFrom 0).map (fun p => order p.1 (p.2.map pack))).flatten
    ∧ ∀ b ∈ chunks items, ∀ n, (order n (b.map pack)).Perm (b.map pack) := by
  constructor
  · rw [run_eq_completedSeq]
    exact completedSeq_flatten_aux pack order items.length items le_rfl 0
  · intro b _ n
    exact hord n (b.map pack)

/-- Witness for C7 at a concrete two-record run. -/
theorem claim_C7_witness :
    run (fun s : String => s) (fun _ l => l) ["a", "b"]
      = (((chunks ["a", "b"]).enumFrom 0).map
          (fun p => (fun _ l => l : Nat → List String → List String) p.1
            (p.2.map (fun s => s)))).flatten :=
  (claim_C7 (fun s : String => s) (fun _ l => l) (fun _ l => List.Perm.refl l)
    ["a", "b"]).1

/-- C9: the batching loop terminates for every finite input list — running it
with fuel `items.length` already reaches the empty list, and each iteration
on a non-empty list removes `min 10000 (length items) ≥ 1` records, strictly
decreasing the remaining length. -/
theorem claim_C9 {R I : Type} (pack : R → I) (order : Nat → List I → List I) :
    (∀ (fuel : Nat) (items : List R) (n : Nat) (st : List I × List I),
        items.length ≤ fuel →
        runAuxF pack order fuel items n st = runAux pack order items n st)
    ∧ ∀ (items : List R), items ≠ [] →
        (items.drop 10000).length < items.length ∧ 1 ≤ min 10000 items.length := by
  constructor
  · intro fuel
    induction fuel with
    | zero =>
      intro items n st hlen
      have hnil : items = [] := List.length_eq_zero.mp (Nat.le_zero.mp hlen)
      subst hnil
      simp [runAuxF, runAux]
    | succ fuel ih =>
      intro items n st hlen
      cases items with
      | nil => simp [runAuxF, runAux]
      | cons x xs =>
        simp only [runAuxF, runAux]
        exact ih _ _ _
          (by simp only [List.length_drop, List.length_cons] at hlen ⊢; omega)
  · intro items hne
    have hpos : 0 < items.length := List.length_pos.mpr hne
    constructor
    · simp only [List.length_drop]
      omega
    · omega

/-- Witness for C9 at a concrete one-record list and exactly enough fuel. -/
theorem claim_C9_witness :
    runAuxF (fun n : Nat => n) (fun _ l => l) 1 [5] 0 ([], [])
        = runAux (fun n : Nat => n) (fun _ l => l) [5] 0 ([], [])
    ∧ ((List.drop 10000 [5]).length < ([5] : List Nat).length
        ∧ 1 ≤ min 10000 ([5] : List Nat).length) :=
  ⟨(claim_C9 (fun n : Nat => n) (fun _ l => l)).1 1 [5] 0 ([], []) (by decide),
   (claim_C9 (fun n : Nat => n) (fun _ l => l)).2 [5] (by decide)⟩

/-! Claims about the modelled shard writer. -/

theorem swrite_rotates (p : ShardingPolicy) (st : ShardState) (sz : Nat)
    (hcond : p.maxcount ≤ st.count ∨ p.maxsize ≤ st.size) :
    swrite p st sz = ⟨st.index + 1, 1, sz, st.closed ++ [(st.count, st.size)]⟩ := by
  simp [swrite, hcond, rotate]

theorem swrite_count_le (p : ShardingPolicy) (st : ShardState) (sz : Nat)
    (h1 : 1 ≤ p.maxcount) : (swrite p st sz).count ≤ p.maxcount := by
  by_cases h : p.maxcount ≤ st.count ∨ p.maxsize ≤ st.size
  · simp only [swrite, h, if_true, rotate]
    omega
  · simp only [swrite, h, if_false]
    rw [not_or] at h
    omega

/-- Counterexample to C3 as stated: with `maxCount = 10` and
`maxSizeBytes = 100`, writing two items of size 60 — neither of which is by
itself oversized — leaves the writer with `currentSizeBytes = 120`, beyond
the size cap, so the stated invariant fails outside its single-oversized-item
exception. -/
theorem claim_C3_cex :
    (writeAll ⟨10, 100⟩ [60, 60] initShard).size = 120
    ∧ ¬ (writeAll ⟨10, 100⟩ [60, 60] initShard).size ≤ 100
    ∧ (60 ≤ 100 ∧ 60 ≤ 100) := by
  decide

/-- C3 (amended): `currentCount ≤ maxCount` holds throughout (for
`maxCount ≥ 1`), and `currentSizeBytes` can exceed `maxSizeBytes` immediately
after a write by at most the size of the item just written — even when that
item alone is not oversized; the invariant is maintained by checking, before
accepting each next item, whether `currentCount ≥ maxCount` or
`currentSizeBytes ≥ maxSizeBytes`, and if so rotating: index incremented by
one, both counters reset before the item is written. -/
theorem claim_C3_amended (p : ShardingPolicy) (st : ShardState) (sz : Nat) :
    (1 ≤ p.maxcount → (swrite p st sz).count ≤ p.maxcount)
    ∧ (swrite p st sz).size ≤ p.maxsize + sz
    ∧ ((p.maxcount ≤ st.count ∨ p.maxsize ≤ st.size) →
        swrite p st sz = ⟨st.index + 1, 1, sz, st.closed ++ [(st.count, st.size)]⟩)
    ∧ (¬ (p.maxcount ≤ st.count ∨ p.maxsize ≤ st.size) →
        swrite p st sz = ⟨st.index, st.count + 1, st.size + sz, st.closed⟩)
    ∧ (1 ≤ p.maxcount → ∀ (szs : List Nat), st.count ≤ p.maxcount →
        (writeAll p szs st).count ≤ p.maxcount) := by
  refine ⟨fun h1 => swrite_count_le p st sz h1, ?_, ?_, ?_, ?_⟩
  · by_cases h : p.maxcount ≤ st.count ∨ p.maxsize ≤ st.size
    · simp only [swrite, h, if_true, rotate]
      omega
    · simp only [swrite, h, if_false]
      rw [not_or] at h
      omega
  · intro h
    exact swrite_rotates p st sz h
  · intro h
    simp [swrite, h]
  · intro h1 szs
    induction szs generalizing st with
    | nil => intro hst; simpa [writeAll] using hst
    | cons s szs ih =>
      intro hst
      unfold writeAll at ih ⊢
      rw [List.foldl_cons]
      exact ih (swrite p st s) (swrite_count_le p st s h1)

/-- Witness for the amended C3 at concrete policies and writes. -/
theorem claim_C3_witness :
    (swrite ⟨3, 10⟩ initShard 4).count ≤ 3
    ∧ (swrite ⟨3, 10⟩ initShard 4).size ≤ 10 + 4
    ∧ swrite ⟨3, 10⟩ ⟨0, 3, 5, []⟩ 4 = ⟨0 + 1, 1, 4, [] ++ [(3, 5)]⟩
    ∧ (writeAll ⟨3, 10⟩ [4, 4] initShard).count ≤ 3 :=
  ⟨(claim_C3_amended ⟨3, 10⟩ initShard 4).1 (by decide),
   (claim_C3_amended ⟨3, 10⟩ initShard 4).2.1,
   (claim_C3_amended ⟨3, 10⟩ ⟨0, 3, 5, []⟩ 4).2.2.1 (by decide),
   (claim_C3_amended ⟨3, 10⟩ initShard 4).2.2.2.2 (by decide) [4, 4] (by decide)⟩

/-- C6: an item whose own serialized size exceeds `maxSizeBytes` is still
written whole into the current shard (exactly one record is added, never
split or rejected); the very next write rotates first; and when such an item
is written into a fresh shard, the shard closed by the next write contains
exactly that one record. -/
theorem claim_C6 (p : ShardingPolicy) (st : ShardState) (sz : Nat)
    (hsz : p.maxsize < sz) :
    totalCount (swrite p st sz) = totalCount st + 1
    ∧ p.maxsize ≤ (swrite p st sz).size
    ∧ (∀ sz2, swrite p (swrite p st sz) sz2
        = ⟨(swrite p st sz).index + 1, 1, sz2,
           (swrite p st sz).closed ++ [((swrite p st sz).count, (swrite p st sz).size)]⟩)
    ∧ (st.count = 0 → st.size = 0 → 1 ≤ p.maxcount → 1 ≤ p.maxsize →
        (swrite p st sz).count = 1 ∧ (swrite p st sz).size = sz
        ∧ ∀ sz2, (swrite p (swrite p st sz) sz2).closed = st.closed ++ [(1, sz)]) := by
  have hsize : p.maxsize ≤ (swrite p st sz).size := by
    by_cases h : p.maxcount ≤ st.count ∨ p.maxsize ≤ st.size
    · simp only [swrite, h, if_true, rotate]
      omega
    · simp only [swrite, h, if_false]
      omega
  have hrot : ∀ sz2, swrite p (swrite p st sz) sz2
      = ⟨(swrite p st sz).index + 1, 1, sz2,
         (swrite p st sz).closed ++ [((swrite p st sz).count, (swrite p st sz).size)]⟩ :=
    fun sz2 => swrite_rotates p (swrite p st sz) sz2 (Or.inr hsize)
  refine ⟨swrite_totalCount p st sz, hsize, hrot, ?_⟩
  intro hc0 hs0 hmc hms
  have hnorot : ¬ (p.maxcount ≤ st.count ∨ p.maxsize ≤ st.size) := by
    rw [not_or, hc0, hs0]
    omega
  have hfresh : swrite p st sz = ⟨st.index, st.count + 1, st.size + sz, st.closed⟩ := by
    simp [swrite, hnorot]
  refine ⟨by rw [hfresh]; simp [hc0], by rw [hfresh]; simp [hs0], ?_⟩
  intro sz2
  rw [hrot sz2, hfresh]
  simp [hc0, hs0]

/-- Witness for C6: a size-9 item against a size cap of 5 in a fresh shard. -/
theorem claim_C6_witness :
    totalCount (swrite ⟨2, 5⟩ initShard 9) = totalCount initShard + 1
    ∧ (5 : Nat) ≤ (swrite ⟨2, 5⟩ initShard 9).size
    ∧ (swrite ⟨2, 5⟩ (swrite ⟨2, 5⟩ initShard 9) 3).closed
        = initShard.closed ++ [(1, 9)] :=
  ⟨(claim_C6 ⟨2, 5⟩ initShard 9 (by decide)).1,
   (claim_C6 ⟨2, 5⟩ initShard 9 (by decide)).2.1,
   ((claim_C6 ⟨2, 5⟩ initShard 9 (by decide)).2.2.2 rfl rfl (by decide) (by decide)).2.2 3⟩

/-! Claims about the error path of the run. -/

theorem drainE_error_decomp {I E : Type} :
    ∀ (cs : List (Except E I)) (st : List I × List I) (e : E) (w : List I),
      drainE st cs = Except.error (e, w) →
      ∃ (preI : List I) (post : List (Except E I)),
        cs = preI.map Except.ok ++ (Except.error e :: post)
        ∧ w = (preI.foldl collect st).2 := by
  intro cs
  induction cs with
  | nil =>
    intro st e w h
    simp [drainE] at h
  | cons c cs ih =>
    intro st e w h
    cases c with
    | error e2 =>
      simp only [drainE, Except.error.injEq, Prod.mk.injEq] at h
      obtain ⟨he, hw⟩ := h
      exact ⟨[], cs, by simp [he], by simp [hw]⟩
    | ok r =>
      simp only [drainE] at h
      obtain ⟨preI, post, hcs, hw⟩ := ih (collect st r) e w h
      exact ⟨r :: preI, post, by simp [hcs], by simp [hw]⟩

theorem runAuxE_error {R I E : Type} (pack : R → Except E I)
    (order : Nat → List (Except E I) → List (Except E I))
    (x : R) (xs : List R) (n : Nat) (st : List I × List I) (ew : E × List I)
    (h : drainE st (order n (((x :: xs).take 10000).map pack)) = Except.error ew) :
    runAuxE pack order (x :: xs) n st = Except.error ew := by
  simp only [runAuxE]
  rw [h]

/-- C5 (amended): a packaging task failure aborts the run fail-fast with the
task's own error value — the first error in the batch's completion order —
re-raised to the caller unchanged (no record identifier is attached by the
loop), together with exactly the writes flushed from the successfully
collected results that preceded it; no later completion is collected or
written, nothing is retried, and writes flushed before the failure remain. -/
theorem claim_C5_amended {R I E : Type} (pack : R → Except E I)
    (order : Nat → List (Except E I) → List (Except E I))
    (x : R) (xs : List R) (n : Nat) (st : List I × List I) (e : E) (w : List I)
    (h : drainE st (order n (((x :: xs).take 10000).map pack)) = Except.error (e, w)) :
    runAuxE pack order (x :: xs) n st = Except.error (e, w)
    ∧ (n = 0 → st = ([], []) → runE pack order (x :: xs) = Except.error (e, w))
    ∧ ∃ (preI : List I) (post : List (Except E I)),
        order n (((x :: xs).take 10000).map pack)
          = preI.map Except.ok ++ (Except.error e :: post)
        ∧ w = (preI.foldl collect st).2 := by
  refine ⟨runAuxE_error pack order x xs n st (e, w) h, ?_,
    drainE_error_decomp _ st e w h⟩
  intro hn hst
  subst hn
  subst hst
  unfold runE
  rw [runAuxE_error pack order x xs 0 ([], []) (e, w) h]

/-- A packaging function that fails the same way on every record, as a failed
file read can: the error value carries nothing about the record. -/
def packFailU : String → Except Unit Unit := fun _ => Except.error ()

/-- The identity completion order for the fallible run. -/
def orderIdU : Nat → List (Except Unit Unit) → List (Except Unit Unit) := fun _ l => l

/-- Counterexample to C5 as stated: two runs failing on records with the
distinct identifiers "a" and "b" propagate the very same error value to the
caller, so the propagated error does not carry the failing record's
identifier (the loop re-raises the task's exception unchanged and never
consults its futures-to-record mapping). -/
theorem claim_C5_cex :
    runE packFailU orderIdU ["a"] = Except.error ((), ([] : List Unit))
    ∧ runE packFailU orderIdU ["b"] = Except.error ((), ([] : List Unit))
    ∧ ("a" : String) ≠ "b" := by
  refine ⟨?_, ?_, by decide⟩
  · unfold runE
    rw [runAuxE_error packFailU orderIdU "a" [] 0 ([], []) ((), []) rfl]
  · unfold runE
    rw [runAuxE_error packFailU orderIdU "b" [] 0 ([], []) ((), []) rfl]

/-- Witness for the amended C5 at a concrete failing one-record run. -/
theorem claim_C5_witness :
    runAuxE packFailU orderIdU ["a"] 0 ([], []) = Except.error ((), ([] : List Unit))
    ∧ runE packFailU orderIdU ["a"] = Except.error ((), ([] : List Unit)) :=
  ⟨(claim_C5_amended packFailU orderIdU "a" [] 0 ([], []) () [] rfl).1,
   (claim_C5_amended packFailU orderIdU "a" [] 0 ([], []) () [] rfl).2.1 rfl rfl⟩

end WdsExample
